import Mathlib

/-!
# Verification of the abandoned-animal forecasting pipeline

Shallow embedding of the data-preparation and forecasting core of the
repository (`streamlit_Web/lstm_model/lstm_improved.py`, `lstm.py`,
`streamlit_Web/tabs/prediction_view.py`).

Conventions of the embedding:
* Calendar dates are day numbers (`Nat`), with the epoch chosen on a Monday,
  so `date % 7` is the Python `datetime.weekday()` value (Monday = 0).
* Organization names are represented by their label-encoded codes (`Nat`);
  the label encoding is a bijection between names and codes, so nothing is
  lost by working with codes directly.
* Real-valued features and probabilities are rationals (`ℚ`), the exact-field
  idealization of the floating-point arithmetic in the source.
* Fallible steps return `Except`; a Python exception that propagates out of a
  function is an `Except.error` result.
-/

namespace AnimalShelter

/-- One raw incident record: an organization (already label-encoded, mirroring
`orgNm_encoded`) and an occurrence date (`happenDt`) as a day number. -/
structure Incident where
  org  : Nat
  date : Nat
deriving DecidableEq, Repr

/-- Failure of the preprocessing step.  In the source an empty incident table
makes `pd.date_range(NaT, NaT)` raise, aborting the run; the embedding names
that failure. -/
inductive DataError where
  | emptySource
deriving DecidableEq, Repr

/-- `df.happenDt.min()`: earliest occurrence date, `none` on empty data. -/
def minDate (incs : List Incident) : Option Nat :=
  (incs.map (·.date)).min?

/-- `df.happenDt.max()`: latest occurrence date, `none` on empty data. -/
def maxDate (incs : List Incident) : Option Nat :=
  (incs.map (·.date)).max?

/-- `df.orgNm_encoded.unique()`: the distinct organization codes in first-seen
order (pandas `unique` preserves order of first appearance). -/
def uniqueOrgs (incs : List Incident) : List Nat :=
  incs.foldl (fun acc r => if r.org ∈ acc then acc else acc ++ [r.org]) []

/-- `pd.date_range(min_date, max_date, freq=D)`: every calendar day from the
earliest to the latest occurrence date, inclusive. -/
def dateRange (incs : List Incident) : List Nat :=
  match minDate incs, maxDate incs with
  | some mn, some mx => List.range' mn (mx + 1 - mn)
  | _, _ => []

/-- A row of the merged (densified) table before feature derivation:
`happenDt`, `orgNm_encoded`, `is_happened`. -/
structure Row where
  happenDt    : Nat
  org         : Nat
  is_happened : Nat
deriving DecidableEq, Repr

/-- The rows the left join `pd.merge(all_combinations, df_happen, how=left)`
produces for one `(date, org)` cell of the cartesian grid: one zero row when
the organization had no incident that day, and otherwise one `is_happened = 1`
row PER MATCHING INCIDENT (pandas duplicates the left row once per duplicate
key on the right; the source never drops duplicates from `df_happen`). -/
def mergeRows (incs : List Incident) (d o : Nat) : List Row :=
  let hits := incs.filter (fun r => r.date == d && r.org == o)
  if hits.isEmpty then [⟨d, o, 0⟩] else hits.map (fun _ => ⟨d, o, 1⟩)

/-- The merged table, in the row order of
`MultiIndex.from_product([date_range, all_org_encoded])`: dates outermost,
organizations innermost. -/
def mergedGrid (incs : List Incident) : List Row :=
  (dateRange incs).flatMap (fun d =>
    (uniqueOrgs incs).flatMap (fun o => mergeRows incs d o))

/-- `preprocess_data` up to densification: derives the date range and builds
the merged grid; on empty source data no date range can be derived and the
run aborts (`pd.date_range` raises on `NaT` bounds). -/
def preprocess_data (incs : List Incident) : Except DataError (List Row) :=
  match minDate incs, maxDate incs with
  | some _, some _ => .ok (mergedGrid incs)
  | _, _ => .error .emptySource

/-- `merged.groupby(orgNm_encoded)`: the rows of one organization, in grid
(date-ascending) order, as `groupby` preserves the original row order. -/
def orgGroup (incs : List Incident) (o : Nat) : List Row :=
  (mergedGrid incs).filter (fun r => r.org == o)

/-- The `is_happened` column of one organization's group. -/
def happenedCol (incs : List Incident) (o : Nat) : List Nat :=
  (orgGroup incs o).map (·.is_happened)

/-- The trailing window `rolling(window=7, min_periods=1)` inspects at
position `i`: the elements at indices `max(0, i-6) .. i`. -/
def trailingWindow (xs : List Nat) (i : Nat) : List Nat :=
  (xs.take (i + 1)).drop (i + 1 - 7)

/-- `x.rolling(window=7, min_periods=1).sum()` over one series. -/
def rollingSum7 (xs : List Nat) : List Nat :=
  (List.range xs.length).map (fun i => (trailingWindow xs i).sum)

/-- The `rolling_sum_7` column of one organization's group. -/
def rolling_sum_7 (incs : List Incident) (o : Nat) : List Nat :=
  rollingSum7 (happenedCol incs o)

end AnimalShelter

namespace AnimalShelter

/-- `MinMaxScaler` fit statistic: column minimum. -/
def colMin (vals : List Nat) : Nat := (vals.min?).getD 0

/-- `MinMaxScaler` fit statistic: column maximum. -/
def colMax (vals : List Nat) : Nat := (vals.max?).getD 0

/-- `MinMaxScaler.transform` on one value, with the scaler fit on `vals`:
`(x - min) / (max - min)`; sklearn maps a constant column to `0`. -/
def minmaxScale (vals : List Nat) (x : Nat) : ℚ :=
  if colMax vals = colMin vals then 0
  else ((x : ℚ) - colMin vals) / ((colMax vals : ℚ) - (colMin vals : ℚ))

/-- The `orgNm_encoded` column of the full merged grid (scaler fit input). -/
def orgCol (incs : List Incident) : List Nat :=
  (mergedGrid incs).map (·.org)

/-- The `weekday` column of the full merged grid (scaler fit input). -/
def weekdayCol (incs : List Incident) : List Nat :=
  (mergedGrid incs).map (fun r => r.happenDt % 7)

/-- The `is_weekend` column of the full merged grid (scaler fit input). -/
def weekendCol (incs : List Incident) : List Nat :=
  (mergedGrid incs).map (fun r => if r.happenDt % 7 ≥ 5 then 1 else 0)

/-- The `rolling_sum_7` column over the whole grid, grouped per organization
(the multiset the scaler is fit on; min/max do not depend on row order). -/
def rollingColAll (incs : List Incident) : List Nat :=
  (uniqueOrgs incs).flatMap (fun o => rolling_sum_7 incs o)

/-- The model-input feature vector
`[is_happened, orgNm_encoded, weekday, is_weekend, rolling_sum_7]`, the last
four min-max scaled over the full grid (`is_happened` is left unscaled by the
source). -/
structure FVec where
  is_happened : ℚ
  org_scaled  : ℚ
  weekday     : ℚ
  is_weekend  : ℚ
  rolling     : ℚ
deriving DecidableEq, Repr, Inhabited

/-- The feature rows of one organization, in date order: each grid row of the
group paired with its `rolling_sum_7` value, each feature scaled with the
scaler fit over the full grid. -/
def featuresFor (incs : List Incident) (o : Nat) : List FVec :=
  List.zipWith (fun r s =>
    { is_happened := (r.is_happened : ℚ)
      org_scaled  := minmaxScale (orgCol incs) r.org
      weekday     := minmaxScale (weekdayCol incs) (r.happenDt % 7)
      is_weekend  := minmaxScale (weekendCol incs)
                       (if r.happenDt % 7 ≥ 5 then 1 else 0)
      rolling     := minmaxScale (rollingColAll incs) s })
    (orgGroup incs o) (rolling_sum_7 incs o)

/-- `_create_sequences`, per organization: for `i in range(len(features) - L)`
emit the window `features[i : i+L]` and the label `features[i+L][0]`
(`is_happened` of the next day). -/
def seqWindows (features : List FVec) (L : Nat) : List (List FVec × ℚ) :=
  (List.range (features.length - L)).map (fun i =>
    ((features.drop i).take L, (features.getD (i + L) default).is_happened))

/-- `_create_sequences` over the whole grid: the per-organization windows,
concatenated over the organizations in encounter order. -/
def _create_sequences (incs : List Incident) (L : Nat) : List (List FVec × ℚ) :=
  (uniqueOrgs incs).flatMap (fun o => seqWindows (featuresFor incs o) L)

end AnimalShelter

namespace AnimalShelter

/-- The trained sequence model as consumed by the forecaster: probability of
`is_happened` on the next day, given an input window.  An `Except.error`
result embeds an exception raised by `model.predict`. -/
def Model : Type := List FVec → Except String ℚ

/-- Python `round` on our exact rationals: round to nearest, ties to even. -/
def roundHalfEven (x : ℚ) : ℤ :=
  if x - x.floor < 1 / 2 then x.floor
  else if x - x.floor > 1 / 2 then x.floor + 1
  else if 2 ∣ x.floor then x.floor else x.floor + 1

/-- Python `round(x, 4)`. -/
def pyRound4 (x : ℚ) : ℚ := (roundHalfEven (x * 10000) : ℚ) / 10000

/-- The synthesized feature vector of the next forecast day
(`next_step_features` in `predict_all_orgnms_next_month`):
hard-thresholded `is_happened`, the carried-forward scaled organization code,
`weekday / 6`, the raw weekend indicator and `mean(window is_happened) * 7`. -/
def nextStepFeatures (p : ℚ) (window : List FVec) (wd : Nat) : FVec :=
  { is_happened := if p > 1 / 2 then 1 else 0
    org_scaled  := (window.getLast?.getD default).org_scaled
    weekday     := (wd : ℚ) / 6
    is_weekend  := if wd ≥ 5 then 1 else 0
    rolling     := ((window.map FVec.is_happened).sum / window.length) * 7 }

/-- The per-organization day loop
(`for day_offset in range(num_prediction_days)`): predicts, accumulates the
probability, synthesizes the next feature vector and slides the window.
Returns the accumulated probability and the number of `model.predict` calls
made; an exception from `model.predict` propagates (nothing catches it). -/
def forecastSteps (model : Model) (startDate : Nat) :
    Nat → Nat → List FVec → ℚ → Except String (ℚ × Nat)
  | _, 0, _, total => .ok (total, 0)
  | dayOffset, n + 1, window, total =>
    match model window with
    | .error e => .error e
    | .ok p =>
      match forecastSteps model startDate (dayOffset + 1) n
              (window.drop 1 ++
                [nextStepFeatures p window ((startDate + dayOffset) % 7)])
              (total + p) with
      | .error e => .error e
      | .ok (t, s) => .ok (t, s + 1)

/-- `recent_org_data[feature_cols].tail(sequence_length)`: the last `L`
feature rows of an organization. -/
def seedWindow (features : List FVec) (L : Nat) : List FVec :=
  features.drop (features.length - L)

/-- One organization's forecast: seed the window with the last `L` feature
rows and run the day loop for `numDays` days starting at `startDate`. -/
def forecastOrg (model : Model) (L startDate numDays : Nat)
    (features : List FVec) : Except String (ℚ × Nat) :=
  forecastSteps model startDate 0 numDays (seedWindow features L) 0

/-- One entry of the ranked report:
`{org_name, predicted_probability_percent}` (the name is kept as the decoded
organization code: label decoding is a bijection). -/
structure OrgResult where
  org_name : Nat
  predicted_probability_percent : ℚ
deriving DecidableEq, Repr, Inhabited

/-- The per-organization accumulation loop of `predict_all_orgnms_next_month`
(before sorting): organizations with fewer than `L` feature rows are skipped
(`continue`); for the rest the day loop runs and
`round((total / num_days) * 100, 4)` is recorded.  An exception inside the
loop propagates and aborts the whole batch — the source has no handler. -/
def collectResults (model : Model) (L startDate numDays : Nat) :
    List (Nat × List FVec) → Except String (List OrgResult)
  | [] => .ok []
  | (o, features) :: rest =>
    if features.length < L then collectResults model L startDate numDays rest
    else
      match forecastOrg model L startDate numDays features with
      | .error e => .error e
      | .ok (total, _) =>
        match collectResults model L startDate numDays rest with
        | .error e => .error e
        | .ok results =>
          .ok (⟨o, pyRound4 ((total / (numDays : ℚ)) * 100)⟩ :: results)

/-- The sort key order of
`sorted(org_nm_likelihoods, key=..., reverse=True)`: descending by
`predicted_probability_percent`. -/
def probGE (a b : OrgResult) : Prop :=
  b.predicted_probability_percent ≤ a.predicted_probability_percent

instance : DecidableRel probGE := fun a b =>
  inferInstanceAs (Decidable
    (b.predicted_probability_percent ≤ a.predicted_probability_percent))

instance : IsTotal OrgResult probGE :=
  ⟨fun a b => le_total b.predicted_probability_percent
    a.predicted_probability_percent⟩

instance : IsTrans OrgResult probGE :=
  ⟨fun _ _ _ hab hbc => le_trans hbc hab⟩

/-- Python `sorted(..., reverse=True)` is a stable sort; insertion sort into
the sorted suffix models it exactly (ties keep their input order). -/
def sortByProbDesc (l : List OrgResult) : List OrgResult :=
  l.insertionSort probGE

/-- `predict_all_orgnms_next_month` on pre-grouped per-organization feature
data: accumulate the per-organization averages, then sort descending. -/
def predict_all_orgnms_next_month (model : Model) (L startDate numDays : Nat)
    (orgsData : List (Nat × List FVec)) : Except String (List OrgResult) :=
  (collectResults model L startDate numDays orgsData).map sortByProbDesc

/-- `self._grouped_org_data`: the per-organization feature rows, grouped once
after preprocessing. -/
def grouped_org_data (incs : List Incident) : List (Nat × List FVec) :=
  (uniqueOrgs incs).map (fun o => (o, featuresFor incs o))

/-- `num_prediction_days = (end - start).days + 1` for a target range with
`start ≤ end`. -/
def num_prediction_days (startDate endDate : Nat) : Nat :=
  endDate + 1 - startDate

end AnimalShelter

namespace AnimalShelter

/-- The mutable predictor state that matters to model loading: `self.model`. -/
structure PredictorState where
  model : Option Model

/-- `load_model_for_prediction`: when the model file exists it is loaded into
`self.model` and `True` is returned; when the path does not exist the failure
is reported by returning `False` and the state is left untouched (no
substitute model is installed).  `pathExists` embeds
`os.path.exists(self.model_save_path)` and `diskModel` the deserialized
artifact. -/
def load_model_for_prediction (pathExists : Bool) (diskModel : Model)
    (s : PredictorState) : PredictorState × Bool :=
  if pathExists then ({ s with model := some diskModel }, true) else (s, false)

/-- The declared keyword parameters of
`AnimalShelterPredictorImproved.predict_all_orgnms_next_month`
(`lstm_improved.py` line 105); the method declares no `**kwargs`. -/
def predict_all_params : List String :=
  ["start_date_str", "end_date_str"]

/-- The keyword arguments `show` in `prediction_view.py` passes to
`predict_all_orgnms_next_month`. -/
def show_call_kwargs : List String :=
  ["start_date_str", "end_date_str", "progress_callback"]

/-- Python call binding for keyword arguments: a keyword that is not a
declared parameter of a function without `**kwargs` raises `TypeError`
before the body runs. -/
def bindKwargs (params kwargs : List String) : Except String Unit :=
  match kwargs.find? (fun k => !(params.contains k)) with
  | some k => .error ("TypeError: unexpected keyword argument " ++ k)
  | none => .ok ()

/-- The prediction-page flow around the forecast call in `show`
(`prediction_view.py`): the call is bound first (a binding failure is the
`TypeError` raised at the call site), the body result comes second, and the
surrounding `try/except Exception` turns any raised exception into an error
banner with no report (`none`). -/
def show_predict (bodyResult : Except String (List OrgResult)) :
    Option (List OrgResult) :=
  match bindKwargs predict_all_params show_call_kwargs with
  | .error _ => none
  | .ok _ =>
    match bodyResult with
    | .error _ => none
    | .ok r => some r

end AnimalShelter

namespace AnimalShelter

/-! ## Helper lemmas -/

lemma ratFloor_eq_intFloor (x : ℚ) : x.floor = ⌊x⌋ := by
  rw [Rat.floor_def', Rat.floor_def]

lemma mem_zipWith {α β γ : Type*} {g : α → β → γ} {l₁ : List α} {l₂ : List β}
    {c : γ} (h : c ∈ List.zipWith g l₁ l₂) :
    ∃ a b, a ∈ l₁ ∧ b ∈ l₂ ∧ c = g a b := by
  induction l₁ generalizing l₂ with
  | nil => simp at h
  | cons a l ih =>
    cases l₂ with
    | nil => simp at h
    | cons b l₂ =>
      simp only [List.zipWith_cons_cons, List.mem_cons] at h
      rcases h with rfl | h
      · exact ⟨a, b, by simp, by simp, rfl⟩
      · obtain ⟨a', b', ha, hb, rfl⟩ := ih h
        exact ⟨a', b', by simp [ha], by simp [hb], rfl⟩

lemma mem_mergeRows {incs : List Incident} {d o : Nat} {r : Row}
    (hr : r ∈ mergeRows incs d o) : r.is_happened ≤ 1 := by
  simp only [mergeRows] at hr
  split at hr
  · rw [List.mem_singleton] at hr
    subst hr
    exact Nat.zero_le 1
  · rw [List.mem_map] at hr
    obtain ⟨_, _, hr⟩ := hr
    subst hr
    exact le_refl 1

lemma mem_mergedGrid_le_one {incs : List Incident} {r : Row}
    (hr : r ∈ mergedGrid incs) : r.is_happened ≤ 1 := by
  simp only [mergedGrid, List.mem_flatMap] at hr
  obtain ⟨d, _, o, _, hro⟩ := hr
  exact mem_mergeRows hro

lemma happenedCol_le_one {incs : List Incident} {o : Nat} :
    ∀ x ∈ happenedCol incs o, x ≤ 1 := by
  intro x hx
  simp only [happenedCol, List.mem_map] at hx
  obtain ⟨r, hr, rfl⟩ := hx
  exact mem_mergedGrid_le_one (List.mem_of_mem_filter hr)

lemma sum_eq_count_one {xs : List Nat} (h : ∀ x ∈ xs, x ≤ 1) :
    xs.sum = xs.count 1 := by
  induction xs with
  | nil => rfl
  | cons x xs ih =>
    have hx : x ≤ 1 := h x (by simp)
    have hxs : xs.sum = xs.count 1 := ih (fun y hy => h y (by simp [hy]))
    interval_cases x
    · simp [List.count_cons, hxs]
    · simp [List.count_cons, hxs]
      try omega

lemma sum_le_length_of_le_one {xs : List Nat} (h : ∀ x ∈ xs, x ≤ 1) :
    xs.sum ≤ xs.length := by
  induction xs with
  | nil => simp
  | cons x xs ih =>
    have hx : x ≤ 1 := h x (by simp)
    have := ih (fun y hy => h y (by simp [hy]))
    simp only [List.sum_cons, List.length_cons]
    omega

lemma trailingWindow_subset (xs : List Nat) (i : Nat) :
    trailingWindow xs i ⊆ xs := fun _ hx =>
  List.take_subset _ _ (List.drop_subset _ _ hx)

lemma trailingWindow_length {xs : List Nat} {i : Nat} (hi : i < xs.length) :
    (trailingWindow xs i).length = i + 1 - (i + 1 - 7) := by
  simp only [trailingWindow, List.length_drop, List.length_take]
  omega

lemma rollingSum7_getD {xs : List Nat} {i : Nat} (hi : i < xs.length) :
    (rollingSum7 xs).getD i 0 = (trailingWindow xs i).sum := by
  have h1 : i < (rollingSum7 xs).length := by
    simpa [rollingSum7] using hi
  rw [List.getD_eq_getElem _ _ h1]
  simp [rollingSum7]

lemma org_scaled_featuresFor {incs : List Incident} {o : Nat} {v : FVec}
    (hv : v ∈ featuresFor incs o) :
    v.org_scaled = minmaxScale (orgCol incs) o := by
  obtain ⟨r, s, hr, _, rfl⟩ := mem_zipWith hv
  have hro : r.org = o := by
    have := List.of_mem_filter hr
    simpa using this
  simp [hro]

end AnimalShelter

namespace AnimalShelter

/-! ## Claim theorems -/

/-- C1: the claim says the densified grid always has exactly D×K rows, one
per (date, organization) pair, with same-day duplicate incidents collapsing
to a single row.  The code violates this: the left join duplicates the grid
row once per duplicate same-day incident.  With two incidents for
organization 0 on day 0 (D = K = 1), the grid has 2 rows instead of 1. -/
theorem preprocess_duplicate_day_inflates_grid :
    preprocess_data [⟨0, 0⟩, ⟨0, 0⟩] = .ok [⟨0, 0, 1⟩, ⟨0, 0, 1⟩] ∧
    (dateRange [(⟨0, 0⟩ : Incident), ⟨0, 0⟩]).length *
      (uniqueOrgs [(⟨0, 0⟩ : Incident), ⟨0, 0⟩]).length = 1 ∧
    (mergedGrid [⟨0, 0⟩, ⟨0, 0⟩]).length = 2 :=
  ⟨rfl, rfl, rfl⟩

/-- C4: with empty source data no date range can be derived and
`preprocess_data` aborts with a `DataError` instead of producing a grid or
continuing. -/
theorem preprocess_empty_source_aborts :
    preprocess_data [] = .error DataError.emptySource := rfl

/-- C6: each `rolling_sum_7` entry is the sum of `is_happened` over the
organization's trailing window of at most 7 rows (at least 1 row at the
start of the series) ending at the row, hence lies in `[0, 7]` and equals
(so never exceeds) the count of `is_happened = 1` rows in that window. -/
theorem rolling_sum_7_trailing_window_spec (incs : List Incident) (o i : Nat)
    (hi : i < (happenedCol incs o).length) :
    (rolling_sum_7 incs o).getD i 0 = (trailingWindow (happenedCol incs o) i).sum ∧
    1 ≤ (trailingWindow (happenedCol incs o) i).length ∧
    (trailingWindow (happenedCol incs o) i).length ≤ 7 ∧
    (rolling_sum_7 incs o).getD i 0 ≤ 7 ∧
    (rolling_sum_7 incs o).getD i 0 =
      (trailingWindow (happenedCol incs o) i).count 1 := by
  have hlen := trailingWindow_length hi
  have hone : ∀ x ∈ trailingWindow (happenedCol incs o) i, x ≤ 1 :=
    fun x hx => happenedCol_le_one x (trailingWindow_subset _ _ hx)
  have hgetD : (rolling_sum_7 incs o).getD i 0 =
      (trailingWindow (happenedCol incs o) i).sum := rollingSum7_getD hi
  refine ⟨hgetD, by omega, by omega, ?_, ?_⟩
  · have := sum_le_length_of_le_one hone
    omega
  · rw [hgetD]
    exact sum_eq_count_one hone

/-- Witness for C6 at a concrete input: one incident of organization 0 on
day 0; the single-row series has rolling sum 1 over a window of one row. -/
theorem rolling_sum_7_trailing_window_witness :
    0 < (happenedCol [⟨0, 0⟩] 0).length ∧
    ((rolling_sum_7 [⟨0, 0⟩] 0).getD 0 0 =
        (trailingWindow (happenedCol [⟨0, 0⟩] 0) 0).sum ∧
      1 ≤ (trailingWindow (happenedCol [⟨0, 0⟩] 0) 0).length ∧
      (trailingWindow (happenedCol [⟨0, 0⟩] 0) 0).length ≤ 7 ∧
      (rolling_sum_7 [⟨0, 0⟩] 0).getD 0 0 ≤ 7 ∧
      (rolling_sum_7 [⟨0, 0⟩] 0).getD 0 0 =
        (trailingWindow (happenedCol [⟨0, 0⟩] 0) 0).count 1) :=
  ⟨by decide, rolling_sum_7_trailing_window_spec [⟨0, 0⟩] 0 0 (by decide)⟩

/-- C5: the windower emits one (window, label) pair per start index
`i ∈ [0, count − L − 1]`; the window is the `L` consecutive feature rows
`i .. i+L−1` and the label the `is_happened` of row `i+L`; fewer than `L+1`
rows yield zero windows; and every window drawn from the full grid carries a
single organization's scaled code in all of its rows. -/
theorem create_sequences_windows_spec (incs : List Incident) (L : Nat)
    (f : List FVec) :
    (seqWindows f L).length = f.length - L ∧
    (∀ i, i < f.length - L →
      ((f.drop i).take L).length = L ∧
      (∀ j, j < L → ((f.drop i).take L).getD j default = f.getD (i + j) default) ∧
      (seqWindows f L).getD i default =
        ((f.drop i).take L, (f.getD (i + L) default).is_happened)) ∧
    (f.length < L + 1 → seqWindows f L = []) ∧
    (∀ wy ∈ _create_sequences incs L, ∃ o ∈ uniqueOrgs incs,
      ∀ v ∈ wy.1, v.org_scaled = minmaxScale (orgCol incs) o) := by
  refine ⟨by simp [seqWindows], ?_, ?_, ?_⟩
  · intro i hi
    have hiL : i + L < f.length := by omega
    refine ⟨?_, ?_, ?_⟩
    · simp only [List.length_take, List.length_drop]
      omega
    · intro j hj
      have h1 : j < ((f.drop i).take L).length := by
        simp only [List.length_take, List.length_drop]
        omega
      have h2 : i + j < f.length := by omega
      rw [List.getD_eq_getElem _ _ h1, List.getD_eq_getElem _ _ h2]
      simp [List.getElem_take, List.getElem_drop]
    · have h1 : i < (seqWindows f L).length := by
        simp only [seqWindows, List.length_map, List.length_range]
        omega
      rw [List.getD_eq_getElem _ _ h1]
      simp [seqWindows]
  · intro h
    have h0 : f.length - L = 0 := by omega
    simp [seqWindows, h0]
  · intro wy hwy
    simp only [_create_sequences, List.mem_flatMap] at hwy
    obtain ⟨o, ho, hw⟩ := hwy
    refine ⟨o, ho, fun v hv => ?_⟩
    simp only [seqWindows, List.mem_map, List.mem_range] at hw
    obtain ⟨i, _, rfl⟩ := hw
    exact org_scaled_featuresFor
      (List.drop_subset _ _ (List.take_subset _ _ hv))

/-- Witness for C5 at concrete inputs: a 2-row series with `L = 1` yields one
window of length 1, and a 1-row series yields zero windows. -/
theorem create_sequences_windows_witness :
    (seqWindows [(default : FVec), default] 1).length = 1 ∧
    (([(default : FVec), default].drop 0).take 1).length = 1 ∧
    seqWindows [(default : FVec)] 1 = [] := by
  have h2 := create_sequences_windows_spec [] 1 [(default : FVec), default]
  have h1 := create_sequences_windows_spec [] 1 [(default : FVec)]
  exact ⟨h2.1, (h2.2.1 0 (by decide)).1, h1.2.2.1 (by decide)⟩

end AnimalShelter

namespace AnimalShelter

/-- The day loop makes exactly as many `model.predict` calls as it has
remaining days: `for day_offset in range(n)` runs its body `n` times. -/
lemma forecastSteps_count (model : Model) (startDate : Nat) :
    ∀ (n dayOffset : Nat) (window : List FVec) (total t : ℚ) (s : Nat),
      forecastSteps model startDate dayOffset n window total = .ok (t, s) →
      s = n := by
  intro n
  induction n with
  | zero =>
    intro dayOffset window total t s h
    simp only [forecastSteps, Except.ok.injEq, Prod.mk.injEq] at h
    exact h.2.symm
  | succ n ih =>
    intro dayOffset window total t s h
    simp only [forecastSteps] at h
    cases hm : model window with
    | error e => rw [hm] at h; simp at h
    | ok p =>
      rw [hm] at h
      dsimp only at h
      cases hr : forecastSteps model startDate (dayOffset + 1) n
          (window.drop 1 ++
            [nextStepFeatures p window ((startDate + dayOffset) % 7)])
          (total + p) with
      | error e => rw [hr] at h; simp at h
      | ok ts =>
        obtain ⟨t', s'⟩ := ts
        rw [hr] at h
        simp only [Except.ok.injEq, Prod.mk.injEq] at h
        have hs' := ih (dayOffset + 1) _ _ _ _ hr
        omega

/-- C2: over a target range of `numDays` days the forecaster performs exactly
`numDays` prediction steps for an eligible organization and reports
`round(100 * total / numDays, 4)` for it (the source computes
`round((total / num_days) * 100, 4)`, the same rational). -/
theorem forecast_numDays_steps_and_average
    (model : Model) (L startDate numDays : Nat)
    (pre post : List (Nat × List FVec)) (o : Nat) (features : List FVec)
    (results : List OrgResult) (total : ℚ) (steps : Nat)
    (hfo : forecastOrg model L startDate numDays features = .ok (total, steps))
    (hlen : ¬ features.length < L)
    (hok : collectResults model L startDate numDays
      (pre ++ (o, features) :: post) = .ok results) :
    steps = numDays ∧
    pyRound4 ((total / (numDays : ℚ)) * 100) =
      pyRound4 (100 * total / (numDays : ℚ)) ∧
    (⟨o, pyRound4 (100 * total / (numDays : ℚ))⟩ : OrgResult) ∈ results := by
  have hsteps : steps = numDays :=
    forecastSteps_count model startDate numDays 0 _ 0 total steps hfo
  have harg : (total / (numDays : ℚ)) * 100 = 100 * total / (numDays : ℚ) := by
    ring
  refine ⟨hsteps, by rw [harg], ?_⟩
  induction pre generalizing results with
  | nil =>
    simp only [List.nil_append, collectResults] at hok
    rw [if_neg hlen, hfo] at hok
    dsimp only at hok
    cases hrest : collectResults model L startDate numDays post with
    | error e => rw [hrest] at hok; simp at hok
    | ok rs =>
      rw [hrest] at hok
      simp only [Except.ok.injEq] at hok
      subst hok
      rw [← harg]
      exact List.mem_cons_self _ _
  | cons q pre' ih =>
    obtain ⟨qo, qf⟩ := q
    simp only [List.cons_append, collectResults, List.append_eq] at hok
    by_cases hq : qf.length < L
    · rw [if_pos hq] at hok
      exact ih _ hok
    · rw [if_neg hq] at hok
      cases hqf : forecastOrg model L startDate numDays qf with
      | error e => rw [hqf] at hok; simp at hok
      | ok ts =>
        obtain ⟨tq, sq⟩ := ts
        rw [hqf] at hok
        dsimp only at hok
        cases hrest : collectResults model L startDate numDays
            (pre' ++ (o, features) :: post) with
        | error e => rw [hrest] at hok; simp at hok
        | ok rs =>
          rw [hrest] at hok
          simp only [Except.ok.injEq] at hok
          subst hok
          exact List.mem_cons_of_mem _ (ih _ hrest)

/-- Witness for C2: a constant-probability model over a 1-day range with one
eligible organization performs 1 step and reports `round(100 * (1/2) / 1, 4)
= 50`. -/
theorem forecast_numDays_steps_and_average_witness :
    (1 : Nat) = 1 ∧
    pyRound4 (((1 / 2 : ℚ) / ((1 : Nat) : ℚ)) * 100) =
      pyRound4 (100 * (1 / 2 : ℚ) / ((1 : Nat) : ℚ)) ∧
    (⟨0, pyRound4 (100 * (1 / 2 : ℚ) / ((1 : Nat) : ℚ))⟩ : OrgResult) ∈
      ([⟨0, (50 : ℚ)⟩] : List OrgResult) :=
  forecast_numDays_steps_and_average (fun _ => .ok (1 / 2)) 0 0 1 [] [] 0 []
    [⟨0, (50 : ℚ)⟩] (1 / 2) 1
    (by norm_num [forecastOrg, forecastSteps, seedWindow])
    (by simp)
    (by norm_num [collectResults, forecastOrg, forecastSteps, seedWindow,
      pyRound4, roundHalfEven, ratFloor_eq_intFloor])

/-- C3 counterexample: a model that raises on organization 0's window leaves
the whole batch failed — organization 1, which the model would happily score,
gets no result either, contradicting the claim that only the failing
organization is dropped while the batch still returns results for every
other organization. -/
theorem forecast_exception_counterexample :
    predict_all_orgnms_next_month
      (fun w => if (w.getLast?.getD ⟨0, 0, 0, 0, 0⟩).org_scaled = 0
        then .error "inference failure" else .ok (1 / 2)) 1 0 1
      [(0, [⟨0, 0, 0, 0, 0⟩]), (1, [⟨0, 1, 0, 0, 0⟩])] =
      .error "inference failure" := by
  norm_num [predict_all_orgnms_next_month, collectResults, forecastOrg,
    forecastSteps, seedWindow, Except.map]

/-- C3 as amended: an exception raised by `model.predict` for any eligible
organization is not caught anywhere in the loop; it propagates and the whole
batch returns a failure instead of a result list. -/
theorem forecast_exception_aborts_batch
    (model : Model) (L startDate numDays : Nat)
    (pre post : List (Nat × List FVec)) (o : Nat) (features : List FVec)
    (e : String)
    (hfail : forecastOrg model L startDate numDays features = .error e)
    (hlen : ¬ features.length < L) :
    (predict_all_orgnms_next_month model L startDate numDays
      (pre ++ (o, features) :: post)).isOk = false := by
  suffices h : (collectResults model L startDate numDays
      (pre ++ (o, features) :: post)).isOk = false by
    unfold predict_all_orgnms_next_month
    cases hc : collectResults model L startDate numDays
        (pre ++ (o, features) :: post) with
    | error e' => rfl
    | ok rs => rw [hc] at h; simp [Except.isOk, Except.toBool] at h
  induction pre with
  | nil =>
    simp only [List.nil_append, collectResults]
    rw [if_neg hlen, hfail]
    rfl
  | cons q pre' ih =>
    obtain ⟨qo, qf⟩ := q
    simp only [List.cons_append, collectResults, List.append_eq]
    by_cases hq : qf.length < L
    · rw [if_pos hq]
      exact ih
    · rw [if_neg hq]
      cases hqf : forecastOrg model L startDate numDays qf with
      | error e' => rfl
      | ok ts =>
        obtain ⟨tq, sq⟩ := ts
        cases hrest : collectResults model L startDate numDays
            (pre' ++ (o, features) :: post) with
        | error e' => rfl
        | ok rs =>
          rw [hrest] at ih
          simp [Except.isOk, Except.toBool] at ih

/-- Witness for the amended C3 at the counterexample input. -/
theorem forecast_exception_aborts_batch_witness :
    (predict_all_orgnms_next_month
      (fun w => if (w.getLast?.getD ⟨0, 0, 0, 0, 0⟩).org_scaled = 0
        then .error "boom" else .ok (1 / 2)) 1 0 1
      ([] ++ (0, [(⟨0, 0, 0, 0, 0⟩ : FVec)]) ::
        [(1, [(⟨0, 1, 0, 0, 0⟩ : FVec)])])).isOk = false :=
  forecast_exception_aborts_batch
    (fun w => if (w.getLast?.getD ⟨0, 0, 0, 0, 0⟩).org_scaled = 0
      then .error "boom" else .ok (1 / 2)) 1 0 1
    [] [(1, [(⟨0, 1, 0, 0, 0⟩ : FVec)])] 0 [⟨0, 0, 0, 0, 0⟩] "boom"
    (by norm_num [forecastOrg, forecastSteps, seedWindow])
    (by simp)

/-- C7: loading the model for prediction when the model file path does not
exist surfaces the failure to the caller (the `False` return) and installs no
substitute model — the predictor state is returned untouched. -/
theorem load_model_missing_path_fails (diskModel : Model)
    (s : PredictorState) :
    load_model_for_prediction false diskModel s = (s, false) ∧
    (load_model_for_prediction false diskModel s).1.model = s.model :=
  ⟨rfl, rfl⟩

/-- Inserting into a descending-sorted suffix keeps the relative order of
entries with any fixed probability: a new entry is placed before the first
strictly smaller one, hence after every earlier tie. -/
lemma filter_orderedInsert (p : ℚ) (x : OrgResult) (l : List OrgResult) :
    (List.orderedInsert probGE x l).filter
        (fun y => decide (y.predicted_probability_percent = p)) =
      if x.predicted_probability_percent = p then
        x :: l.filter (fun y => decide (y.predicted_probability_percent = p))
      else l.filter (fun y => decide (y.predicted_probability_percent = p)) := by
  induction l with
  | nil =>
    by_cases hx : x.predicted_probability_percent = p <;>
      simp [hx, List.orderedInsert]
  | cons y l ih =>
    rw [List.orderedInsert]
    by_cases hr : probGE x y
    · rw [if_pos hr]
      by_cases hx : x.predicted_probability_percent = p <;>
        simp [hx, List.filter_cons]
    · rw [if_neg hr]
      by_cases hx : x.predicted_probability_percent = p
      · have hy : ¬ y.predicted_probability_percent = p := by
          intro hyp
          exact hr (le_of_eq (hyp.trans hx.symm))
        simp only [List.filter_cons, ih, if_pos hx]
        simp [hy]
      · simp only [List.filter_cons, ih, if_neg hx]

/-- Python's `sorted` is stable: filtering the sorted report down to the
entries with any fixed probability recovers them in their input order. -/
lemma filter_sortByProbDesc (p : ℚ) (l : List OrgResult) :
    (sortByProbDesc l).filter
        (fun y => decide (y.predicted_probability_percent = p)) =
      l.filter (fun y => decide (y.predicted_probability_percent = p)) := by
  induction l with
  | nil => rfl
  | cons x l ih =>
    rw [sortByProbDesc, List.insertionSort, filter_orderedInsert]
    rw [sortByProbDesc] at ih
    by_cases hx : x.predicted_probability_percent = p
    · rw [if_pos hx, ih, List.filter_cons, if_pos (by simp [hx])]
    · rw [if_neg hx, ih, List.filter_cons, if_neg (by simp [hx])]

/-- C8: the forecast report is the stable descending sort of the accumulated
per-organization results: it is sorted descending by
`predicted_probability_percent`, any `take top_n` prefix of it is still
sorted (truncation never reorders), and entries with equal percentages keep
their prior relative order. -/
theorem ranking_sorted_descending (model : Model) (L startDate numDays : Nat)
    (orgsData : List (Nat × List FVec)) (raw : List OrgResult)
    (hraw : collectResults model L startDate numDays orgsData = .ok raw) :
    predict_all_orgnms_next_month model L startDate numDays orgsData =
      .ok (sortByProbDesc raw) ∧
    (sortByProbDesc raw).Sorted probGE ∧
    (∀ n, ((sortByProbDesc raw).take n).Sorted probGE) ∧
    (∀ p : ℚ, (sortByProbDesc raw).filter
        (fun y => decide (y.predicted_probability_percent = p)) =
      raw.filter (fun y => decide (y.predicted_probability_percent = p))) := by
  have hs : (sortByProbDesc raw).Sorted probGE :=
    List.sorted_insertionSort probGE raw
  refine ⟨?_, hs,
    fun n => List.Pairwise.sublist (List.take_sublist n _) hs,
    fun p => filter_sortByProbDesc p raw⟩
  unfold predict_all_orgnms_next_month
  rw [hraw]
  rfl

/-- Witness for C8: two tied organizations at 50 percent; the report is their
stable sort, sorted, its 1-element prefix sorted, and the tie kept in input
order. -/
theorem ranking_sorted_descending_witness :
    predict_all_orgnms_next_month (fun _ => .ok (1 / 2)) 0 0 1
        [(0, []), (1, [])] =
      .ok (sortByProbDesc [⟨0, 50⟩, ⟨1, 50⟩]) ∧
    (sortByProbDesc [(⟨0, 50⟩ : OrgResult), ⟨1, 50⟩]).Sorted probGE ∧
    ((sortByProbDesc [(⟨0, 50⟩ : OrgResult), ⟨1, 50⟩]).take 1).Sorted probGE ∧
    (sortByProbDesc [(⟨0, 50⟩ : OrgResult), ⟨1, 50⟩]).filter
        (fun y => decide (y.predicted_probability_percent = 50)) =
      [(⟨0, 50⟩ : OrgResult), ⟨1, 50⟩].filter
        (fun y => decide (y.predicted_probability_percent = 50)) := by
  have h := ranking_sorted_descending (fun _ => .ok (1 / 2)) 0 0 1
    [(0, []), (1, [])] [⟨0, 50⟩, ⟨1, 50⟩]
    (by norm_num [collectResults, forecastOrg, forecastSteps, seedWindow,
      pyRound4, roundHalfEven, ratFloor_eq_intFloor])
  exact ⟨h.1, h.2.1, h.2.2.1 1, h.2.2.2 50⟩

/-- C9: the prediction page's call passes the keyword argument
`progress_callback`, which `predict_all_orgnms_next_month` does not declare,
so the call raises `TypeError` before the body can run; the page's
`try/except` catches it and no ranked report is ever produced, whatever the
forecast body would have returned. -/
theorem show_call_raises_type_error_no_report :
    bindKwargs predict_all_params show_call_kwargs =
      .error "TypeError: unexpected keyword argument progress_callback" ∧
    ∀ bodyResult : Except String (List OrgResult),
      show_predict bodyResult = none := by
  have hb : bindKwargs predict_all_params show_call_kwargs =
      .error "TypeError: unexpected keyword argument progress_callback" := rfl
  refine ⟨hb, fun bodyResult => ?_⟩
  unfold show_predict
  rw [hb]

end AnimalShelter

namespace AnimalShelter

lemma foldl_orgIns_mono {x : Nat} :
    ∀ (l : List Incident) (acc : List Nat), x ∈ acc →
      x ∈ l.foldl (fun acc r => if r.org ∈ acc then acc else acc ++ [r.org])
        acc := by
  intro l
  induction l with
  | nil => intro acc h; simpa using h
  | cons r l ih =>
    intro acc h
    rw [List.foldl_cons]
    apply ih
    by_cases hr : r.org ∈ acc
    · rw [if_pos hr]; exact h
    · rw [if_neg hr]; exact List.mem_append.mpr (Or.inl h)

lemma mem_uniqueOrgs {incs : List Incident} {r : Incident} (h : r ∈ incs) :
    r.org ∈ uniqueOrgs incs := by
  unfold uniqueOrgs
  suffices hgen : ∀ (l : List Incident) (acc : List Nat), r ∈ l →
      r.org ∈ l.foldl
        (fun acc x => if x.org ∈ acc then acc else acc ++ [x.org]) acc from
    hgen incs [] h
  intro l
  induction l with
  | nil => intro acc hc; simp at hc
  | cons q l ih =>
    intro acc hc
    rw [List.foldl_cons]
    rcases List.mem_cons.mp hc with heq | hmem
    · subst heq
      apply foldl_orgIns_mono
      by_cases hq : r.org ∈ acc
      · rw [if_pos hq]; exact hq
      · rw [if_neg hq]; exact List.mem_append.mpr (Or.inr (by simp))
    · exact ih _ hmem

lemma minDate_le_of_mem {incs : List Incident} {r : Incident} (h : r ∈ incs) :
    ∃ mn, minDate incs = some mn ∧ mn ≤ r.date := by
  unfold minDate
  cases hm : (incs.map (·.date)).min? with
  | none =>
    rw [List.min?_eq_none_iff, List.map_eq_nil_iff] at hm
    subst hm
    simp at h
  | some mn =>
    exact ⟨mn, rfl, (List.min?_eq_some_iff'.mp hm).2 r.date
      (List.mem_map_of_mem _ h)⟩

lemma le_maxDate_of_mem {incs : List Incident} {r : Incident} (h : r ∈ incs) :
    ∃ mx, maxDate incs = some mx ∧ r.date ≤ mx := by
  unfold maxDate
  cases hm : (incs.map (·.date)).max? with
  | none =>
    rw [List.max?_eq_none_iff, List.map_eq_nil_iff] at hm
    subst hm
    simp at h
  | some mx =>
    exact ⟨mx, rfl, (List.max?_eq_some_iff'.mp hm).2 r.date
      (List.mem_map_of_mem _ h)⟩

lemma date_mem_dateRange {incs : List Incident} {r : Incident}
    (h : r ∈ incs) : r.date ∈ dateRange incs := by
  obtain ⟨mn, hmn, h1⟩ := minDate_le_of_mem h
  obtain ⟨mx, hmx, h2⟩ := le_maxDate_of_mem h
  unfold dateRange
  rw [hmn, hmx, List.mem_range']
  exact ⟨r.date - mn, by omega, by omega⟩

lemma mergeRows_ne_nil (incs : List Incident) (d o : Nat) :
    mergeRows incs d o ≠ [] := by
  simp only [mergeRows]
  split
  · simp
  · next h =>
      simp only [ne_eq, List.map_eq_nil_iff]
      intro hc
      exact h (by rw [hc]; rfl)

lemma mem_mergeRows_happenDt {incs : List Incident} {d o : Nat} {r : Row}
    (h : r ∈ mergeRows incs d o) : r.happenDt = d := by
  simp only [mergeRows] at h
  split at h
  · rw [List.mem_singleton] at h
    subst h
    rfl
  · rw [List.mem_map] at h
    obtain ⟨_, _, h⟩ := h
    subst h
    rfl

lemma weekdayCol_mem_iff {incs : List Incident} (hne : incs ≠ []) (w : Nat) :
    w ∈ weekdayCol incs ↔ ∃ d ∈ dateRange incs, d % 7 = w := by
  constructor
  · intro hw
    simp only [weekdayCol, List.mem_map] at hw
    obtain ⟨r, hr, rfl⟩ := hw
    simp only [mergedGrid, List.mem_flatMap] at hr
    obtain ⟨d, hd, o, _, hro⟩ := hr
    exact ⟨d, hd, by rw [mem_mergeRows_happenDt hro]⟩
  · rintro ⟨d, hd, hw⟩
    obtain ⟨rr, hrr⟩ := List.exists_mem_of_ne_nil incs hne
    obtain ⟨r0, hr0⟩ :=
      List.exists_mem_of_ne_nil _ (mergeRows_ne_nil incs d rr.org)
    simp only [weekdayCol, List.mem_map]
    refine ⟨r0, ?_, by rw [mem_mergeRows_happenDt hr0, hw]⟩
    simp only [mergedGrid, List.mem_flatMap]
    exact ⟨d, hd, rr.org, mem_uniqueOrgs hrr, hr0⟩

lemma weekdayCol_ne_nil {incs : List Incident} (hne : incs ≠ []) :
    weekdayCol incs ≠ [] := by
  obtain ⟨rr, hrr⟩ := List.exists_mem_of_ne_nil incs hne
  obtain ⟨r0, hr0⟩ :=
    List.exists_mem_of_ne_nil _ (mergeRows_ne_nil incs rr.date rr.org)
  apply List.ne_nil_of_mem (a := r0.happenDt % 7)
  simp only [weekdayCol, List.mem_map]
  refine ⟨r0, ?_, rfl⟩
  simp only [mergedGrid, List.mem_flatMap]
  exact ⟨rr.date, date_mem_dateRange hrr, rr.org, mem_uniqueOrgs hrr, hr0⟩

lemma weekdayCol_lt_7 {incs : List Incident} :
    ∀ w ∈ weekdayCol incs, w < 7 := by
  intro w hw
  simp only [weekdayCol, List.mem_map] at hw
  obtain ⟨r, _, rfl⟩ := hw
  exact Nat.mod_lt _ (by norm_num)

lemma colMin_spec {vals : List Nat} (h : vals ≠ []) :
    colMin vals ∈ vals ∧ ∀ x ∈ vals, colMin vals ≤ x := by
  unfold colMin
  cases hm : vals.min? with
  | none => exact absurd (List.min?_eq_none_iff.mp hm) h
  | some m => simpa using List.min?_eq_some_iff'.mp hm

lemma colMax_spec {vals : List Nat} (h : vals ≠ []) :
    colMax vals ∈ vals ∧ ∀ x ∈ vals, x ≤ colMax vals := by
  unfold colMax
  cases hm : vals.max? with
  | none => exact absurd (List.max?_eq_none_iff.mp hm) h
  | some m => simpa using List.max?_eq_some_iff'.mp hm

/-- C10: the synthesized next-step vector uses `weekday / 6` (and the
unscaled window mean of `is_happened` times 7 for `rolling_sum_7`), and
`weekday / 6` coincides with the min-max weekday scaling fitted on the grid
for all possible weekdays exactly when the grid's date range contains both a
weekday 0 and a weekday 6; otherwise the synthesized weekday feature is on a
different scale than the training features. -/
theorem synthesized_weekday_scale_spec (incs : List Incident)
    (hne : incs ≠ []) :
    (∀ (p : ℚ) (window : List FVec) (wd : Nat),
      (nextStepFeatures p window wd).weekday = (wd : ℚ) / 6 ∧
      (nextStepFeatures p window wd).rolling =
        ((window.map FVec.is_happened).sum / (window.length : ℚ)) * 7) ∧
    (∀ w, w ∈ weekdayCol incs ↔ ∃ d ∈ dateRange incs, d % 7 = w) ∧
    ((∀ w : Nat, w ≤ 6 → (w : ℚ) / 6 = minmaxScale (weekdayCol incs) w) ↔
      0 ∈ weekdayCol incs ∧ 6 ∈ weekdayCol incs) := by
  refine ⟨fun p window wd => ⟨rfl, rfl⟩, weekdayCol_mem_iff hne, ?_⟩
  have hvne := weekdayCol_ne_nil hne
  obtain ⟨hmn_mem, hmn_le⟩ := colMin_spec hvne
  obtain ⟨hmx_mem, hmx_ge⟩ := colMax_spec hvne
  constructor
  · intro H
    by_cases hc : colMax (weekdayCol incs) = colMin (weekdayCol incs)
    · exfalso
      have h6 := H 6 (le_refl 6)
      rw [minmaxScale, if_pos hc] at h6
      norm_num at h6
    · have hden : ((colMax (weekdayCol incs) : ℚ) -
          (colMin (weekdayCol incs) : ℚ)) ≠ 0 := by
        rw [sub_ne_zero]
        exact_mod_cast hc
      have h0 := H 0 (by norm_num)
      rw [minmaxScale, if_neg hc] at h0
      have hmn0 : colMin (weekdayCol incs) = 0 := by
        have h0' : (((0 : Nat) : ℚ) - (colMin (weekdayCol incs) : ℚ)) /
            ((colMax (weekdayCol incs) : ℚ) -
              (colMin (weekdayCol incs) : ℚ)) = 0 := by
          rw [← h0]
          norm_num
        rw [div_eq_zero_iff] at h0'
        rcases h0' with hnum | hd
        · have hq : (colMin (weekdayCol incs) : ℚ) = 0 := by
            push_cast at hnum
            linarith
          exact_mod_cast hq
        · exact absurd hd hden
      have h6 := H 6 (le_refl 6)
      rw [minmaxScale, if_neg hc, hmn0] at h6
      have hne0' : colMax (weekdayCol incs) ≠ 0 := by
        rw [hmn0] at hc
        exact hc
      have hne0 : (colMax (weekdayCol incs) : ℚ) ≠ 0 :=
        Nat.cast_ne_zero.mpr hne0'
      have hmx6 : colMax (weekdayCol incs) = 6 := by
        push_cast at h6
        field_simp at h6
        exact_mod_cast h6
      exact ⟨hmn0 ▸ hmn_mem, hmx6 ▸ hmx_mem⟩
  · rintro ⟨h0, h6⟩ w hw
    have hmn0 : colMin (weekdayCol incs) = 0 := Nat.le_zero.mp (hmn_le 0 h0)
    have hmx6 : colMax (weekdayCol incs) = 6 :=
      le_antisymm (Nat.lt_succ_iff.mp (weekdayCol_lt_7 _ hmx_mem))
        (hmx_ge 6 h6)
    have hc : ¬ colMax (weekdayCol incs) = colMin (weekdayCol incs) := by
      rw [hmn0, hmx6]
      norm_num
    rw [minmaxScale, if_neg hc, hmn0, hmx6]
    push_cast
    ring

/-- Witness for C10: a grid over days 0..6 contains weekdays 0 and 6, so the
synthesized weekday feature `3 / 6` agrees with the fitted scaling at
weekday 3. -/
theorem synthesized_weekday_scale_witness :
    (nextStepFeatures 0 [] 3).weekday = ((3 : Nat) : ℚ) / 6 ∧
    ((3 : Nat) : ℚ) / 6 = minmaxScale (weekdayCol [⟨0, 0⟩, ⟨0, 6⟩]) 3 := by
  have h := synthesized_weekday_scale_spec [⟨0, 0⟩, ⟨0, 6⟩] (by simp)
  exact ⟨(h.1 0 [] 3).1, (h.2.2.mpr ⟨by decide, by decide⟩) 3 (by norm_num)⟩

end AnimalShelter
